import Mathlib

/-!
Verification of the LanguagePicker component
(src/components/LanguagePicker.tsx).

The component resolves, for every supported locale code, a display record
(source name, target name, translation approval progress), sorts the
records by progress descending, filters them against a free-text query,
and renders them as navigation items.

The embedding below translates the resolver, ranker and filter logic of
the source file into Lean.  JavaScript truthiness on the two `||`
fallbacks (an empty string and the number 0 are falsy) is modelled
explicitly by `jsFalsyStr`, `jsOrStr` and `jsOrNat`.  The external
collaborators (translation lookup `t`, `Intl.DisplayNames`, the i18n
configuration table, the progress table, the router fields and the
`DEFAULT_LOCALE` constant) are inputs of the environment record
`PickerEnv`, as the spec describes them.
-/

namespace LanguagePicker

/-- An entry of the i18n configuration table (`i18n.config.json`):
`code`, English `name`, native `localName` (possibly absent in the JSON,
hence `Option`), and `crowdinCode` joining to the progress table. -/
structure LocaleConfigEntry where
  code : String
  name : String
  localName : Option String
  crowdinCode : String
deriving DecidableEq

/-- An entry of the translation progress table
(`translationProgress.json`): `languageId` and `approvalProgress`. -/
structure ProgressEntry where
  languageId : String
  approvalProgress : Nat
deriving DecidableEq

/-- The per-locale display record produced by the resolver
(type `LocaleDisplayInfo` in the source). -/
structure LocaleDisplayInfo where
  localeChoice : String
  source : String
  target : String
  approvalProgress : Nat
deriving DecidableEq

/-- The inputs of the component: the router fields (`locale`, `locales`,
the latter possibly `undefined`), the configuration table, the progress
table, the translation lookup `t` (returns the key itself when
untranslated), the `Intl.DisplayNames` facility
(`intlDisplayNames inLocale subject`, possibly `undefined`), and the
`DEFAULT_LOCALE` constant. -/
structure PickerEnv where
  locale : String
  locales : Option (List String)
  i18nConfig : List LocaleConfigEntry
  progressData : List ProgressEntry
  t : String → String
  intlDisplayNames : String → String → Option String
  defaultLocale : String

/-- JavaScript truthiness test for a possibly-undefined string:
`undefined` and the empty string are falsy (used by `!source`,
`!target` and by `||` on strings). -/
def jsFalsyStr : Option String → Bool
  | none => true
  | some s => s == ""

/-- JavaScript `a || b` for a possibly-undefined string `a`:
yields `b` when `a` is `undefined` or empty. -/
def jsOrStr (a : Option String) (b : Option String) : Option String :=
  match a with
  | none => b
  | some s => if s == "" then b else some s

/-- JavaScript `a || b` for a possibly-undefined number `a`:
yields `b` when `a` is `undefined` or `0`. -/
def jsOrNat (a : Option Nat) (b : Nat) : Nat :=
  match a with
  | none => b
  | some n => if n = 0 then b else n

/-- JavaScript `String.prototype.toLowerCase`, modelled as lower-casing
every character. -/
def strToLower (s : String) : String :=
  String.mk (s.data.map Char.toLower)

/-- JavaScript `String.prototype.includes`: substring containment. -/
def strIncludes (s sub : String) : Bool :=
  decide (sub.data <:+: s.data)

/-- The `source` display name of a locale choice (lines 90-99 of the
source): the `Intl` name in the viewer locale if it differs from the
code, else the configured English name; a translation-table hit on
key `"language-" + lowercase(code)` overrides both. -/
def sourceOf (env : PickerEnv) (item : LocaleConfigEntry) (localeChoice : String) :
    Option String :=
  let intlSource := env.intlDisplayNames env.locale localeChoice
  let fallbackSource := if intlSource ≠ some localeChoice then intlSource else some item.name
  let i18nKey := "language-" ++ strToLower localeChoice
  let i18nSource := env.t i18nKey
  if i18nSource = i18nKey then fallbackSource else some i18nSource

/-- The `target` display name of a locale choice (lines 101-106 of the
source): the configured `localName`, with JavaScript `||` fallback to
the `Intl` autonym of the locale in itself. -/
def targetOf (env : PickerEnv) (item : LocaleConfigEntry) (localeChoice : String) :
    Option String :=
  let fallbackTarget := env.intlDisplayNames localeChoice localeChoice
  jsOrStr item.localName fallbackTarget

/-- The `approvalProgress` of a locale choice (lines 114-119 of the
source): the progress entry joined on `crowdinCode`, with JavaScript
`||` fallback to 100 for the default locale and 0 otherwise. -/
def approvalProgressOf (env : PickerEnv) (item : LocaleConfigEntry) (localeChoice : String) :
    Nat :=
  let dataItem := env.progressData.find? (fun p => item.crowdinCode == p.languageId)
  jsOrNat (dataItem.map ProgressEntry.approvalProgress)
    (if localeChoice = env.defaultLocale then 100 else 0)

/-- The two exceptions thrown by the resolver. -/
inductive ResolveError where
  | configMissing (localeChoice : String)
  | missingDisplayName (localeChoice : String)
deriving DecidableEq

/-- The body of the resolver once the configuration entry has been
found (lines 90-121 of the source): throws when `!source || !target`,
otherwise returns the display record. -/
def resolveWithItem (env : PickerEnv) (localeChoice : String) (item : LocaleConfigEntry) :
    Except ResolveError LocaleDisplayInfo :=
  if jsFalsyStr (sourceOf env item localeChoice) || jsFalsyStr (targetOf env item localeChoice) then
    .error (.missingDisplayName localeChoice)
  else
    .ok { localeChoice := localeChoice
          source := (sourceOf env item localeChoice).getD ""
          target := (targetOf env item localeChoice).getD ""
          approvalProgress := approvalProgressOf env item localeChoice }

/-- The per-locale resolver (the body of the `map` at lines 83-122 of
the source): looks up the configuration entry by `code` and throws
when it is absent. -/
def resolveLocale (env : PickerEnv) (localeChoice : String) :
    Except ResolveError LocaleDisplayInfo :=
  match env.i18nConfig.find? (fun item => localeChoice == item.code) with
  | none => .error (.configMissing localeChoice)
  | some item => resolveWithItem env localeChoice item

/-- The `map` over the supported locale list: left to right, aborting
at the first thrown exception, as a JavaScript `Array.prototype.map`
whose callback throws. -/
def resolveAll (env : PickerEnv) : List String → Except ResolveError (List LocaleDisplayInfo)
  | [] => .ok []
  | L :: ls =>
    (resolveLocale env L).bind (fun r => (resolveAll env ls).map (fun rs => r :: rs))

/-- One insertion step of the ranker: place `x` (the earlier input
element) before the first element it need not follow under the
comparator `(a, b) => b.approvalProgress - a.approvalProgress` of
line 123, i.e. before the first `y` with
`y.approvalProgress ≤ x.approvalProgress`. -/
def insertDesc (x : LocaleDisplayInfo) : List LocaleDisplayInfo → List LocaleDisplayInfo
  | [] => [x]
  | y :: ys =>
    if y.approvalProgress ≤ x.approvalProgress then x :: y :: ys
    else y :: insertDesc x ys

/-- The ranker (line 123 of the source): JavaScript
`Array.prototype.sort` is required to be stable, and a stable sort
under the comparator `(a, b) => b.approvalProgress - a.approvalProgress`
is uniquely determined; it is modelled by stable insertion sort. -/
def sortByProgressDesc : List LocaleDisplayInfo → List LocaleDisplayInfo
  | [] => []
  | x :: xs => insertDesc x (sortByProgressDesc xs)

/-- The `displayNames` value (lines 81-123 of the source):
`locales?.map(...).sort(...) || []`. -/
def displayNames (env : PickerEnv) : Except ResolveError (List LocaleDisplayInfo) :=
  match env.locales with
  | none => .ok []
  | some ls => (resolveAll env ls).map sortByProgressDesc

/-- The filter predicate of lines 125-130 of the source:
`(localeChoice + source + target).toLowerCase().includes(filterValue.toLowerCase())`. -/
def passesFilter (filterValue : String) (r : LocaleDisplayInfo) : Bool :=
  strIncludes (strToLower (r.localeChoice ++ r.source ++ r.target)) (strToLower filterValue)

/-- The `filteredNames` value (lines 125-130 of the source). -/
def filteredNames (env : PickerEnv) (filterValue : String) :
    Except ResolveError (List LocaleDisplayInfo) :=
  (displayNames env).map (List.filter (passesFilter filterValue))

/-- The observable effects of activating a rendered item. -/
inductive UIEffect where
  | navigate (path : String) (localeCode : String)
  | callerHandleClose
  | menuOnClose
deriving DecidableEq

/-- The `onMenuClose` handler (lines 139-142 of the source):
`handleClose ? handleClose() : onClose()`. -/
def onMenuClose (hasHandleClose : Bool) : UIEffect :=
  if hasHandleClose then .callerHandleClose else .menuOnClose

/-- Modelled from the spec: the navigation behaviour of `BaseLink`
(imported from components/Link, not under src/) on item activation.
Per the spec, on selection the component calls the navigation
primitive with `(currentPath, selectedLocaleCode)` and then calls
`handleClose` if provided, else the dropdown's own close function;
the `Item` at lines 230-237 of the source wires `href={asPath}`,
`locale={localeChoice}` and `onClick={onMenuClose}`. -/
def activateItem (asPath localeChoice : String) (hasHandleClose : Bool) : List UIEffect :=
  [UIEffect.navigate asPath localeChoice, onMenuClose hasHandleClose]

/-! Concrete fixtures, used to exhibit the theorems on explicit inputs. -/

/-- A translation lookup with no translations: every key falls through
to itself, as the lookup service does for untranslated keys. -/
def idTranslate : String → String := fun k => k

/-- An `Intl.DisplayNames` stub that knows every locale and renders it
as the code followed by an exclamation mark. -/
def bangIntl : String → String → Option String := fun _ subject => some (subject ++ "!")

/-- Configuration entry for English. -/
def cfgEn : LocaleConfigEntry :=
  { code := "en", name := "English", localName := some "English", crowdinCode := "en" }

/-- Configuration entry for Spanish. -/
def cfgEs : LocaleConfigEntry :=
  { code := "es", name := "Spanish", localName := some "Espanol", crowdinCode := "es" }

/-- Configuration entry whose `localName` is present but empty. -/
def cfgDe : LocaleConfigEntry :=
  { code := "de", name := "German", localName := some "", crowdinCode := "de" }

/-- Configuration entry that resolves to no display name at all:
empty English name and no native name. -/
def cfgBlank : LocaleConfigEntry :=
  { code := "zz", name := "", localName := none, crowdinCode := "zz" }

/-- A two-locale environment matching the worked example of the spec. -/
def envMain : PickerEnv :=
  { locale := "en", locales := some ["en", "es"]
    i18nConfig := [cfgEn, cfgEs]
    progressData := [{ languageId := "es", approvalProgress := 40 }]
    t := idTranslate
    intlDisplayNames := bangIntl
    defaultLocale := "en" }

/-- An environment whose default locale has a progress entry whose
`approvalProgress` is 0. -/
def envZeroProgress : PickerEnv :=
  { locale := "en", locales := some ["en"]
    i18nConfig := [cfgEn]
    progressData := [{ languageId := "en", approvalProgress := 0 }]
    t := idTranslate
    intlDisplayNames := bangIntl
    defaultLocale := "en" }

/-- An environment whose configuration supplies an empty `localName`. -/
def envEmptyLocalName : PickerEnv :=
  { locale := "en", locales := some ["de"]
    i18nConfig := [cfgDe]
    progressData := []
    t := idTranslate
    intlDisplayNames := bangIntl
    defaultLocale := "en" }

/-- An environment in which neither `source` nor `target` resolves for
code `zz`: the naming facility knows nothing and the configured
English name is empty. -/
def envBlank : PickerEnv :=
  { locale := "zz", locales := some ["zz"]
    i18nConfig := [cfgBlank]
    progressData := []
    t := idTranslate
    intlDisplayNames := fun _ _ => none
    defaultLocale := "zz" }

/-- An environment with an empty configuration table. -/
def envNoCfg : PickerEnv :=
  { locale := "en", locales := some ["xx"]
    i18nConfig := []
    progressData := []
    t := idTranslate
    intlDisplayNames := bangIntl
    defaultLocale := "en" }

/-- The record the resolver produces for `en` in `envMain`. -/
def recEn : LocaleDisplayInfo :=
  { localeChoice := "en", source := "en!", target := "English", approvalProgress := 100 }

/-- The record the resolver produces for `es` in `envMain`. -/
def recEs : LocaleDisplayInfo :=
  { localeChoice := "es", source := "es!", target := "Espanol", approvalProgress := 40 }

/-- The record the resolver produces for `de` in `envEmptyLocalName`. -/
def recDe : LocaleDisplayInfo :=
  { localeChoice := "de", source := "de!", target := "de!", approvalProgress := 0 }

/-! Helper lemmas. -/

theorem except_map_ok {α β ε : Type} (f : α → β) (a : α) :
    (Except.ok a : Except ε α).map f = .ok (f a) := rfl

theorem except_map_error {α β ε : Type} (f : α → β) (e : ε) :
    (Except.error e : Except ε α).map f = .error e := rfl

theorem except_bind_ok {α β ε : Type} (a : α) (f : α → Except ε β) :
    (Except.ok a : Except ε α).bind f = f a := rfl

theorem except_bind_error {α β ε : Type} (e : ε) (f : α → Except ε β) :
    (Except.error e : Except ε α).bind f = .error e := rfl

theorem resolveLocale_find_none (env : PickerEnv) (L : String)
    (h : env.i18nConfig.find? (fun item => L == item.code) = none) :
    resolveLocale env L = .error (.configMissing L) := by
  unfold resolveLocale
  rw [h]

theorem resolveLocale_find_some (env : PickerEnv) (L : String) (item : LocaleConfigEntry)
    (h : env.i18nConfig.find? (fun item => L == item.code) = some item) :
    resolveLocale env L = resolveWithItem env L item := by
  unfold resolveLocale
  rw [h]

theorem displayNames_some (env : PickerEnv) (ls : List String)
    (h : env.locales = some ls) :
    displayNames env = (resolveAll env ls).map sortByProgressDesc := by
  unfold displayNames
  rw [h]

theorem jsFalsyStr_false (x : Option String) (h : jsFalsyStr x = false) :
    ∃ s, x = some s ∧ s ≠ "" := by
  cases x with
  | none => simp [jsFalsyStr] at h
  | some s =>
    refine ⟨s, rfl, ?_⟩
    simpa [jsFalsyStr] using h

theorem resolveWithItem_ok (env : PickerEnv) (L : String) (item : LocaleConfigEntry)
    (r : LocaleDisplayInfo) (h : resolveWithItem env L item = .ok r) :
    jsFalsyStr (sourceOf env item L) = false ∧
    jsFalsyStr (targetOf env item L) = false ∧
    r = { localeChoice := L, source := (sourceOf env item L).getD "",
          target := (targetOf env item L).getD "",
          approvalProgress := approvalProgressOf env item L } := by
  cases hs : jsFalsyStr (sourceOf env item L) <;>
    cases ht : jsFalsyStr (targetOf env item L) <;>
    simp [resolveWithItem, hs, ht] at h
  simp_all

theorem resolveLocale_ok_fields (env : PickerEnv) (L : String) (r : LocaleDisplayInfo)
    (hok : resolveLocale env L = .ok r) :
    r.localeChoice = L ∧ r.source ≠ "" ∧ r.target ≠ "" := by
  cases hfind : env.i18nConfig.find? (fun item => L == item.code) with
  | none =>
    rw [resolveLocale_find_none env L hfind] at hok
    cases hok
  | some item =>
    rw [resolveLocale_find_some env L item hfind] at hok
    obtain ⟨hs, ht, hr⟩ := resolveWithItem_ok env L item r hok
    obtain ⟨s, hseq, hsne⟩ := jsFalsyStr_false _ hs
    obtain ⟨u, hteq, htne⟩ := jsFalsyStr_false _ ht
    subst hr
    simp [hseq, hteq, hsne, htne]

theorem resolveAll_ok_spec (env : PickerEnv) (ls : List String)
    (rs : List LocaleDisplayInfo) (h : resolveAll env ls = .ok rs) :
    rs.map LocaleDisplayInfo.localeChoice = ls ∧
    ∀ r ∈ rs, ∃ L, resolveLocale env L = .ok r := by
  induction ls generalizing rs with
  | nil =>
    simp only [resolveAll] at h
    obtain rfl := Except.ok.inj h
    simp
  | cons L ls ih =>
    simp only [resolveAll] at h
    cases hL : resolveLocale env L with
    | error e =>
      rw [hL, except_bind_error] at h
      cases h
    | ok r =>
      rw [hL, except_bind_ok] at h
      cases hT : resolveAll env ls with
      | error e =>
        rw [hT, except_map_error] at h
        cases h
      | ok rs2 =>
        rw [hT, except_map_ok] at h
        obtain rfl := Except.ok.inj h
        obtain ⟨h1, h2⟩ := ih rs2 hT
        constructor
        · simp [h1, (resolveLocale_ok_fields env L r hL).1]
        · intro x hx
          rcases List.mem_cons.mp hx with rfl | hx2
          · exact ⟨L, hL⟩
          · exact h2 x hx2

theorem insertDesc_perm (x : LocaleDisplayInfo) (l : List LocaleDisplayInfo) :
    (insertDesc x l).Perm (x :: l) := by
  induction l with
  | nil => rfl
  | cons y ys ih =>
    simp only [insertDesc]
    split
    · rfl
    · exact (ih.cons y).trans (List.Perm.swap x y ys)

theorem sortByProgressDesc_perm (l : List LocaleDisplayInfo) :
    (sortByProgressDesc l).Perm l := by
  induction l with
  | nil => rfl
  | cons x xs ih => exact (insertDesc_perm x (sortByProgressDesc xs)).trans (ih.cons x)

theorem sorted_insertDesc (x : LocaleDisplayInfo) (l : List LocaleDisplayInfo)
    (h : l.Pairwise (fun a b => b.approvalProgress ≤ a.approvalProgress)) :
    (insertDesc x l).Pairwise (fun a b => b.approvalProgress ≤ a.approvalProgress) := by
  induction l with
  | nil => simp [insertDesc]
  | cons y ys ih =>
    rw [List.pairwise_cons] at h
    obtain ⟨hy, hys⟩ := h
    simp only [insertDesc]
    split
    · rename_i hc
      rw [List.pairwise_cons]
      refine ⟨?_, List.Pairwise.cons hy hys⟩
      intro z hz
      rcases List.mem_cons.mp hz with rfl | hz2
      · exact hc
      · exact le_trans (hy z hz2) hc
    · rename_i hc
      rw [List.pairwise_cons]
      refine ⟨?_, ih hys⟩
      intro z hz
      rcases List.mem_cons.mp ((insertDesc_perm x ys).mem_iff.mp hz) with rfl | hz2
      · omega
      · exact hy z hz2

theorem sorted_sortByProgressDesc (l : List LocaleDisplayInfo) :
    (sortByProgressDesc l).Pairwise (fun a b => b.approvalProgress ≤ a.approvalProgress) := by
  induction l with
  | nil => simp [sortByProgressDesc]
  | cons x xs ih => exact sorted_insertDesc x (sortByProgressDesc xs) ih

theorem filter_insertDesc (x : LocaleDisplayInfo) (l : List LocaleDisplayInfo) (k : Nat) :
    (insertDesc x l).filter (fun r => r.approvalProgress == k)
      = if x.approvalProgress = k
        then x :: l.filter (fun r => r.approvalProgress == k)
        else l.filter (fun r => r.approvalProgress == k) := by
  induction l with
  | nil =>
    by_cases hx : x.approvalProgress = k <;> simp [insertDesc, List.filter_cons, hx]
  | cons y ys ih =>
    simp only [insertDesc]
    by_cases hy : y.approvalProgress ≤ x.approvalProgress
    · rw [if_pos hy]
      by_cases hx : x.approvalProgress = k <;>
        simp [List.filter_cons, hx]
    · rw [if_neg hy]
      by_cases hx : x.approvalProgress = k
      · have hyk : ¬ (y.approvalProgress = k) := by omega
        simp [List.filter_cons, ih, hx, hyk]
      · by_cases hyk : y.approvalProgress = k <;>
          simp [List.filter_cons, ih, hx, hyk]

theorem filter_sortByProgressDesc (l : List LocaleDisplayInfo) (k : Nat) :
    (sortByProgressDesc l).filter (fun r => r.approvalProgress == k)
      = l.filter (fun r => r.approvalProgress == k) := by
  induction l with
  | nil => rfl
  | cons x xs ih =>
    simp only [sortByProgressDesc, filter_insertDesc, ih]
    by_cases hx : x.approvalProgress = k <;> simp [List.filter_cons, hx]

theorem passesFilter_empty (r : LocaleDisplayInfo) : passesFilter "" r = true := by
  unfold passesFilter strIncludes
  exact decide_eq_true ⟨[], (strToLower (r.localeChoice ++ r.source ++ r.target)).data, rfl⟩

/-! Claim theorems. -/

/-- C5: per-locale resolution raises the configuration error if and
only if the supported locale code has no matching entry (by `code`) in
the configuration table; when an entry exists, resolution of that code
never raises this error. -/
theorem claim_configuration_error_iff (env : PickerEnv) (L : String) :
    (env.i18nConfig.find? (fun item => L == item.code) = none →
        resolveLocale env L = .error (.configMissing L)) ∧
    (∀ entry, env.i18nConfig.find? (fun item => L == item.code) = some entry →
        ∀ M, resolveLocale env L ≠ .error (.configMissing M)) := by
  constructor
  · exact resolveLocale_find_none env L
  · intro entry hfind M hcontra
    rw [resolveLocale_find_some env L entry hfind] at hcontra
    unfold resolveWithItem at hcontra
    split at hcontra
    · cases hcontra
    · cases hcontra

/-- Witness for C5 at a concrete environment: an empty configuration
table raises the configuration error, and in `envMain` (where `es` has
an entry) resolution of `es` never raises it. -/
theorem claim_configuration_error_iff_witness :
    resolveLocale envNoCfg "xx" = .error (.configMissing "xx") ∧
    resolveLocale envMain "es" ≠ .error (.configMissing "es") :=
  ⟨(claim_configuration_error_iff envNoCfg "xx").1 rfl,
   (claim_configuration_error_iff envMain "es").2 cfgEs rfl "es"⟩

/-- C6: for every input list of resolved records, the ranked list is
sorted non-increasing by `approvalProgress`, is a permutation of the
input, and the sort is stable: among records with equal
`approvalProgress` the input order is preserved (the subsequence of
records at any fixed progress value is unchanged). -/
theorem claim_ranker_sorted_stable (l : List LocaleDisplayInfo) :
    (sortByProgressDesc l).Pairwise
        (fun a b => b.approvalProgress ≤ a.approvalProgress) ∧
    (sortByProgressDesc l).Perm l ∧
    ∀ k, (sortByProgressDesc l).filter (fun r => r.approvalProgress == k)
        = l.filter (fun r => r.approvalProgress == k) :=
  ⟨sorted_sortByProgressDesc l, sortByProgressDesc_perm l,
   filter_sortByProgressDesc l⟩

/-- C8: activating a rendered item for a locale code produces exactly
the navigation to the current path under that locale followed by one
close call; the caller-supplied `handleClose` takes precedence over the
dropdown close function, and the two are never both invoked. -/
theorem claim_item_activation (asPath L : String) (hasHandleClose : Bool) :
    activateItem asPath L hasHandleClose
      = [UIEffect.navigate asPath L,
         if hasHandleClose then UIEffect.callerHandleClose else UIEffect.menuOnClose] ∧
    (hasHandleClose = true → onMenuClose hasHandleClose = .callerHandleClose) ∧
    (hasHandleClose = false → onMenuClose hasHandleClose = .menuOnClose) ∧
    ¬(UIEffect.callerHandleClose ∈ activateItem asPath L hasHandleClose ∧
      UIEffect.menuOnClose ∈ activateItem asPath L hasHandleClose) := by
  cases hasHandleClose <;> simp [activateItem, onMenuClose]

/-- Witness for C8: with and without a caller-supplied close handler
the matching single close effect is produced. -/
theorem claim_item_activation_witness :
    onMenuClose true = .callerHandleClose ∧ onMenuClose false = .menuOnClose :=
  ⟨(claim_item_activation "/" "es" true).2.1 rfl,
   (claim_item_activation "/" "es" false).2.2.1 rfl⟩

/-- C10: when the routing context supplies no supported-locale list at
all, the component does not fail: the resolved list is empty and the
filtered list is empty for every filter string. -/
theorem claim_no_locales_empty (viewer : String) (cfg : List LocaleConfigEntry)
    (pd : List ProgressEntry) (tr : String → String)
    (intl : String → String → Option String) (dl : String) (F : String) :
    displayNames
        { locale := viewer, locales := none, i18nConfig := cfg, progressData := pd,
          t := tr, intlDisplayNames := intl, defaultLocale := dl } = .ok [] ∧
    filteredNames
        { locale := viewer, locales := none, i18nConfig := cfg, progressData := pd,
          t := tr, intlDisplayNames := intl, defaultLocale := dl } F = .ok [] :=
  ⟨rfl, rfl⟩

/-- C1 fails on the code: in `envZeroProgress` the default locale `en`
has a progress entry whose `approvalProgress` is 0, yet the resolver
returns `approvalProgress = 100` (the JavaScript `||` treats the 0
entry as absent), where the claim requires the entry value 0. -/
theorem claim_zero_progress_counterexample :
    envZeroProgress.i18nConfig.find? (fun item => "en" == item.code) = some cfgEn ∧
    envZeroProgress.progressData.find? (fun p => cfgEn.crowdinCode == p.languageId)
      = some { languageId := "en", approvalProgress := 0 } ∧
    resolveLocale envZeroProgress "en"
      = .ok { localeChoice := "en", source := "en!", target := "English",
              approvalProgress := 100 } ∧
    (100 : Nat) ≠ 0 :=
  ⟨rfl, rfl, rfl, by decide⟩

/-- C3 fails on the code: in `envEmptyLocalName` the configuration
supplies `localName` (the empty string) for `de`, yet the resolver's
`target` is the platform autonym, not the supplied value. -/
theorem claim_empty_localName_counterexample :
    cfgDe.localName = some "" ∧
    envEmptyLocalName.i18nConfig.find? (fun item => "de" == item.code) = some cfgDe ∧
    resolveLocale envEmptyLocalName "de"
      = .ok { localeChoice := "de", source := "de!", target := "de!",
              approvalProgress := 0 } ∧
    ("de!" : String) ≠ "" :=
  ⟨rfl, rfl, rfl, by decide⟩

/-- C1 (amended): for every supported locale code with a configuration
entry, the resolver's `approvalProgress` equals the matching progress
entry's value whenever that value is nonzero; when the matching entry's
value is 0, or when no entry matches, it is 100 for the default locale
and 0 otherwise. -/
theorem claim_approval_progress (env : PickerEnv) (L : String)
    (item : LocaleConfigEntry) (r : LocaleDisplayInfo)
    (hcfg : env.i18nConfig.find? (fun it => L == it.code) = some item)
    (hok : resolveLocale env L = .ok r) :
    (∀ e, env.progressData.find? (fun p => item.crowdinCode == p.languageId) = some e →
        e.approvalProgress ≠ 0 → r.approvalProgress = e.approvalProgress) ∧
    (∀ e, env.progressData.find? (fun p => item.crowdinCode == p.languageId) = some e →
        e.approvalProgress = 0 →
        r.approvalProgress = if L = env.defaultLocale then 100 else 0) ∧
    (env.progressData.find? (fun p => item.crowdinCode == p.languageId) = none →
        r.approvalProgress = if L = env.defaultLocale then 100 else 0) := by
  rw [resolveLocale_find_some env L item hcfg] at hok
  obtain ⟨-, -, hr⟩ := resolveWithItem_ok env L item r hok
  subst hr
  refine ⟨?_, ?_, ?_⟩
  · intro e he hne
    simp [approvalProgressOf, he, jsOrNat, hne]
  · intro e he hzero
    simp [approvalProgressOf, he, jsOrNat, hzero]
  · intro hnone
    simp [approvalProgressOf, hnone, jsOrNat]

/-- Witness for C1 (amended): in `envMain`, locale `es` has the
nonzero progress entry 40 and the resolver reports 40. -/
theorem claim_approval_progress_witness : recEs.approvalProgress = 40 :=
  (claim_approval_progress envMain "es" cfgEs recEs rfl rfl).1
    { languageId := "es", approvalProgress := 40 } rfl (by decide)

/-- C2: the resolver's `source` field follows the precedence
translated string over platform display name over configured English
name: a translation-table hit on key `"language-" + lowercase(L)` wins;
otherwise, when the platform rendering of `L` in the viewer's locale
differs from `L` itself, that rendering wins; otherwise the configured
English name is used. -/
theorem claim_source_precedence (env : PickerEnv) (L : String)
    (item : LocaleConfigEntry) (r : LocaleDisplayInfo)
    (hcfg : env.i18nConfig.find? (fun it => L == it.code) = some item)
    (hok : resolveLocale env L = .ok r) :
    (env.t ("language-" ++ strToLower L) ≠ "language-" ++ strToLower L →
        r.source = env.t ("language-" ++ strToLower L)) ∧
    (env.t ("language-" ++ strToLower L) = "language-" ++ strToLower L →
        env.intlDisplayNames env.locale L ≠ some L →
        some r.source = env.intlDisplayNames env.locale L) ∧
    (env.t ("language-" ++ strToLower L) = "language-" ++ strToLower L →
        env.intlDisplayNames env.locale L = some L →
        r.source = item.name) := by
  rw [resolveLocale_find_some env L item hcfg] at hok
  obtain ⟨hs, -, hr⟩ := resolveWithItem_ok env L item r hok
  subst hr
  refine ⟨?_, ?_, ?_⟩
  · intro ht
    simp only [sourceOf, if_neg ht]
    rfl
  · intro ht hintl
    simp only [sourceOf, if_pos ht, if_pos hintl] at hs ⊢
    obtain ⟨s, hseq, -⟩ := jsFalsyStr_false _ hs
    simp [hseq]
  · intro ht hintl
    have hnot : ¬ (env.intlDisplayNames env.locale L ≠ some L) := by
      simp [hintl]
    simp only [sourceOf, if_pos ht, if_neg hnot]
    rfl

/-- Witness for C2: in `envMain` there is no translation hit for `es`
and the platform rendering differs from the code, so the `source`
field is the platform rendering. -/
theorem claim_source_precedence_witness :
    some recEs.source = envMain.intlDisplayNames envMain.locale "es" :=
  (claim_source_precedence envMain "es" cfgEs recEs rfl rfl).2.1 rfl (by decide)

/-- C3 (amended): the resolver's `target` field is the configuration's
`localName` whenever the configuration supplies a non-empty one;
otherwise (absent or empty `localName`) it is the platform rendering
of the locale in itself, the native autonym. -/
theorem claim_target_precedence (env : PickerEnv) (L : String)
    (item : LocaleConfigEntry) (r : LocaleDisplayInfo)
    (hcfg : env.i18nConfig.find? (fun it => L == it.code) = some item)
    (hok : resolveLocale env L = .ok r) :
    (∀ s, item.localName = some s → s ≠ "" → r.target = s) ∧
    (item.localName = none ∨ item.localName = some "" →
        some r.target = env.intlDisplayNames L L) := by
  rw [resolveLocale_find_some env L item hcfg] at hok
  obtain ⟨-, ht, hr⟩ := resolveWithItem_ok env L item r hok
  subst hr
  constructor
  · intro s hln hsne
    simp [targetOf, jsOrStr, hln, hsne]
  · intro hln
    simp only [targetOf] at ht ⊢
    rcases hln with hln | hln <;>
      [skip; skip] <;>
      · rw [hln] at ht ⊢
        simp only [jsOrStr] at ht ⊢
        obtain ⟨u, hueq, -⟩ := jsFalsyStr_false _ (by simpa using ht)
        simp_all

/-- Witness for C3 (amended): in `envMain` the configuration supplies
the non-empty native name for `es` and the resolver's `target` is it. -/
theorem claim_target_precedence_witness : recEs.target = "Espanol" :=
  (claim_target_precedence envMain "es" cfgEs recEs rfl rfl).1 "Espanol" rfl (by decide)

/-- C9: when the configuration entry supplies `localName` as the empty
string, the resolver treats it as absent and `target` falls back to
the platform autonym. -/
theorem claim_empty_localName_fallback (env : PickerEnv) (L : String)
    (item : LocaleConfigEntry) (r : LocaleDisplayInfo)
    (hcfg : env.i18nConfig.find? (fun it => L == it.code) = some item)
    (hln : item.localName = some "")
    (hok : resolveLocale env L = .ok r) :
    some r.target = env.intlDisplayNames L L := by
  rw [resolveLocale_find_some env L item hcfg] at hok
  obtain ⟨-, ht, hr⟩ := resolveWithItem_ok env L item r hok
  subst hr
  simp only [targetOf, hln, jsOrStr] at ht ⊢
  obtain ⟨u, hueq, -⟩ := jsFalsyStr_false _ (by simpa using ht)
  simp_all

/-- Witness for C9: `envEmptyLocalName` supplies the empty `localName`
for `de` and the resolved `target` is the platform autonym of `de`. -/
theorem claim_empty_localName_fallback_witness :
    some recDe.target = envEmptyLocalName.intlDisplayNames "de" "de" :=
  claim_empty_localName_fallback envEmptyLocalName "de" cfgDe recDe rfl rfl rfl

/-- C4: per-locale resolution fails with the missing-display-name
error when both `source` and `target` cannot be resolved to a
non-empty string, and every record the resolver returns has non-empty
`source` and `target`; on success the resolver returns exactly one
record per supported locale code (the ranked list's codes are a
permutation of the supported list). -/
theorem claim_nonempty_records :
    (∀ env L item, env.i18nConfig.find? (fun it => L == it.code) = some item →
        jsFalsyStr (sourceOf env item L) = true →
        jsFalsyStr (targetOf env item L) = true →
        resolveLocale env L = .error (.missingDisplayName L)) ∧
    (∀ env L r, resolveLocale env L = .ok r → r.source ≠ "" ∧ r.target ≠ "") ∧
    (∀ env ls rs, env.locales = some ls → displayNames env = .ok rs →
        (rs.map LocaleDisplayInfo.localeChoice).Perm ls ∧
        ∀ r ∈ rs, r.source ≠ "" ∧ r.target ≠ "") := by
  refine ⟨?_, ?_, ?_⟩
  · intro env L item hcfg hs ht
    rw [resolveLocale_find_some env L item hcfg]
    unfold resolveWithItem
    rw [if_pos (by simp [hs, ht])]
  · intro env L r hok
    exact (resolveLocale_ok_fields env L r hok).2
  · intro env ls rs hls h
    rw [displayNames_some env ls hls] at h
    cases hall : resolveAll env ls with
    | error e =>
      rw [hall, except_map_error] at h
      cases h
    | ok rs0 =>
      rw [hall, except_map_ok] at h
      obtain rfl := Except.ok.inj h
      obtain ⟨hmap, hmem⟩ := resolveAll_ok_spec env ls rs0 hall
      constructor
      · calc ((sortByProgressDesc rs0).map LocaleDisplayInfo.localeChoice).Perm
              (rs0.map LocaleDisplayInfo.localeChoice) :=
              (sortByProgressDesc_perm rs0).map LocaleDisplayInfo.localeChoice
          _ = ls := hmap
      · intro r hr
        obtain ⟨L, hok⟩ := hmem r ((sortByProgressDesc_perm rs0).mem_iff.mp hr)
        exact (resolveLocale_ok_fields env L r hok).2

/-- Witness for C4: in `envBlank` neither name resolves for `zz` and
resolution throws; in `envMain` the resolved list covers exactly the
supported codes with non-empty names. -/
theorem claim_nonempty_records_witness :
    resolveLocale envBlank "zz" = .error (.missingDisplayName "zz") ∧
    ([recEn, recEs].map LocaleDisplayInfo.localeChoice).Perm ["en", "es"] :=
  ⟨claim_nonempty_records.1 envBlank "zz" cfgBlank rfl rfl rfl,
   (claim_nonempty_records.2.2 envMain ["en", "es"] [recEn, recEs] rfl rfl).1⟩

/-- C7: for every environment whose resolution succeeds with ranked
list `rs` and every filter string `F`, the filtered list consists
exactly of the records of `rs`, in order, whose lower-cased
concatenation `localeChoice + source + target` contains the
lower-cased `F` as a substring; filtering with the empty string
returns the full ranked list. -/
theorem claim_filter_spec (env : PickerEnv) (F : String)
    (rs : List LocaleDisplayInfo) (h : displayNames env = .ok rs) :
    filteredNames env F = .ok (rs.filter (passesFilter F)) ∧
    (∀ r fs, filteredNames env F = .ok fs →
        (r ∈ fs ↔ r ∈ rs ∧
          (strToLower F).data <:+:
            (strToLower (r.localeChoice ++ r.source ++ r.target)).data)) ∧
    (F = "" → filteredNames env F = .ok rs) := by
  have h1 : filteredNames env F = .ok (rs.filter (passesFilter F)) := by
    unfold filteredNames
    rw [h, except_map_ok]
  refine ⟨h1, ?_, ?_⟩
  · intro r fs hfs
    rw [h1] at hfs
    obtain rfl := Except.ok.inj hfs
    rw [List.mem_filter]
    unfold passesFilter strIncludes
    simp [decide_eq_true_eq]
  · intro hF
    subst hF
    rw [h1, List.filter_eq_self.mpr]
    intro a _
    exact passesFilter_empty a

/-- Witness for C7: filtering `envMain` with the empty string returns
the full ranked list. -/
theorem claim_filter_spec_witness :
    filteredNames envMain "" = .ok [recEn, recEs] :=
  (claim_filter_spec envMain "" [recEn, recEs] rfl).2.2 rfl

end LanguagePicker
